import Mathlib

/-!
# Verification of the self-destruct download server (`src/main.py`)

This file shallowly embeds the HTTP delivery core of the repository:
`ALLOWED_EXTS`, `PROJECT_ROOT`/`SERVE_PREFIX` handling, and
`SelfDestructHandler.do_GET` (src/main.py, lines 43-108), together with the
pieces of the Python standard library the handler calls
(`urllib.parse.unquote`, `str.lstrip`, `os.path.join`, `os.path.abspath` /
`posixpath.normpath`, `os.path.splitext`, `os.path.basename`, `str.lower`).

Paths are modelled as `List Char`.  The filesystem is an association list
from absolute path strings to entries (regular file with a size, or
directory); `os.path.exists` is lookup success, `os.remove` removes the
binding.  Network and OS nondeterminism that the handler reacts to is an
explicit `Env`: how the streaming `try` block ends (completed, caught
`BrokenPipeError`, or an uncaught exception), whether `os.remove` raises a
non-`FileNotFoundError` error, and whether the file vanished between the
existence check and the cleanup (a concurrent delete).  Percent-decoding is
modelled for single-byte escapes (the ASCII range); multi-byte UTF-8
escape sequences are outside the modelled inputs.
-/

namespace SelfDestruct

/-! ## Python string/path primitives used by the handler -/

/-- Value of one hexadecimal digit, as accepted by `urllib.parse.unquote`. -/
def hexDigit (c : Char) : Option Nat :=
  if '0' ≤ c ∧ c ≤ '9' then some (c.toNat - '0'.toNat)
  else if 'a' ≤ c ∧ c ≤ 'f' then some (c.toNat - 'a'.toNat + 10)
  else if 'A' ≤ c ∧ c ≤ 'F' then some (c.toNat - 'A'.toNat + 10)
  else none

/-- Model of `urllib.parse.unquote` on the ASCII range: a valid `%XY` escape becomes
the character with code `0xXY`; an invalid escape is kept literally and
decoding continues after the `%`. -/
def unquoteChars : List Char → List Char
  | [] => []
  | '%' :: a :: b :: rest =>
    match hexDigit a, hexDigit b with
    | some ha, some hb => Char.ofNat (16 * ha + hb) :: unquoteChars rest
    | _, _ => '%' :: unquoteChars (a :: b :: rest)
  | c :: rest => c :: unquoteChars rest

/-- Model of `str.lower` on the ASCII range (extensions here are ASCII). -/
def asciiLowerChar (c : Char) : Char :=
  if 'A' ≤ c ∧ c ≤ 'Z' then Char.ofNat (c.toNat + 32) else c

/-- Model of `str.lower`, applied characterwise. -/
def asciiLower (s : List Char) : List Char := s.map asciiLowerChar

/-- Model of `posixpath.join a b` (two-argument form, as called on line 57). -/
def pjoin (a b : List Char) : List Char :=
  if b.head? = some '/' then b
  else if a = [] ∨ a.getLast? = some '/' then a ++ b
  else a ++ '/' :: b

/-- Split a path on `'/'`, like Python's `path.split('/')`:
`splitSlash "" = [""]`, and every separator produces a new component. -/
def splitSlash : List Char → List (List Char)
  | [] => [[]]
  | c :: rest =>
    let r := splitSlash rest
    if c = '/' then [] :: r else (c :: r.headI) :: r.tail

/-- Joining with `'/'`, the inverse direction of `splitSlash`. -/
def joinSlash : List (List Char) → List Char
  | [] => []
  | [c] => c
  | c :: rest => c ++ '/' :: joinSlash rest

/-- One step of `posixpath.normpath`'s component loop: skip empty and `"."`
components, let `".."` pop the previous component (except at the start of a
relative path or after an unpopped `".."`), push everything else.  The
accumulator holds the kept components in reverse order. -/
def normStep (initAbs : Bool) (acc : List (List Char)) (comp : List Char) :
    List (List Char) :=
  if comp = [] ∨ comp = ['.'] then acc
  else if comp = ['.', '.'] then
    match acc with
    | [] => if initAbs then [] else [comp]
    | c :: acc' => if c = ['.', '.'] then comp :: acc else acc'
  else comp :: acc

/-- Number of leading slashes `posixpath.normpath` preserves: one for an
absolute path, two for exactly-two leading slashes, zero otherwise. -/
def slashPrefixLen (p : List Char) : Nat :=
  if p.take 1 = ['/'] then
    if p.take 2 = ['/', '/'] ∧ ¬ p.take 3 = ['/', '/', '/'] then 2 else 1
  else 0

/-- Model of `posixpath.normpath`: purely lexical normalization of `.` and `..`
(symlinks are *not* resolved — this mirrors the library, which is a fact
the containment check of the handler inherits). -/
def normpath (p : List Char) : List Char :=
  if p = [] then ['.']
  else
    let k := slashPrefixLen p
    let comps := (splitSlash p).foldl (normStep (decide (0 < k))) []
    let res := List.replicate k '/' ++ joinSlash comps.reverse
    if res = [] then ['.'] else res

/-- Model of `os.path.abspath` under working directory `cwd`:
an already-absolute path is just normalized,
a relative one is joined to the current working directory first.  In the
handler the argument always starts with `PROJECT_ROOT`, itself absolute,
so the `cwd` branch is never taken there. -/
def abspath (cwd p : List Char) : List Char :=
  if p.head? = some '/' then normpath p else normpath (pjoin cwd p)

/-- Model of `os.path.basename`: everything after the last `'/'`. -/
def basenameOf (p : List Char) : List Char :=
  (p.reverse.takeWhile (fun c => decide (c ≠ '/'))).reverse

/-- Suffix of a list starting at its last `'.'`, if it has one. -/
def afterLastDot : List Char → Option (List Char)
  | [] => none
  | c :: rest =>
    match afterLastDot rest with
    | some s => some s
    | none => if c = '.' then some (c :: rest) else none

/-- The extension part of `os.path.splitext`: the suffix of the basename
from its last dot, except that the leading dots of the basename never open
an extension (`".bashrc"` has none). -/
def extOf (p : List Char) : List Char :=
  match afterLastDot ((basenameOf p).dropWhile (fun c => decide (c = '.'))) with
  | some s => s
  | none => []

/-! ## Filesystem model -/

/-- A directory entry: a regular file with its byte size, or a directory. -/
inductive Entry where
  | file (size : Nat)
  | dir
deriving DecidableEq

/-- The filesystem: bindings from absolute path strings to entries. -/
abbrev FS := List (List Char × Entry)

/-- Entry bound to path `p`, if any. -/
def fsLookup : FS → List Char → Option Entry
  | [], _ => none
  | (k, e) :: rest, p => if k = p then some e else fsLookup rest p

/-- Model of `os.path.exists`: true for files *and* directories. -/
def fsExists (fs : FS) (p : List Char) : Bool := (fsLookup fs p).isSome

/-- Model of a succeeding `os.remove p`: drop the binding of `p`. -/
def fsRemove : FS → List Char → FS
  | [], _ => []
  | (k, e) :: rest, p => if k = p then fsRemove rest p else (k, e) :: fsRemove rest p

/-- Model of `os.path.getsize` of a regular file (queried on the serve path). -/
def fsSize (fs : FS) (p : List Char) : Nat :=
  match fsLookup fs p with
  | some (.file sz) => sz
  | _ => 0

/-! ## The handler (src/main.py lines 43-108) -/

/-- The constant `ALLOWED_EXTS` (line 43). -/
def ALLOWED_EXTS : List (List Char) :=
  [".mp4".toList, ".m4a".toList, ".mp3".toList, ".wav".toList, ".webm".toList,
   ".mov".toList, ".mkv".toList, ".aac".toList, ".flac".toList, ".ogg".toList]

/-- Line 56: strip the URL prefix, percent-decode, strip leading slashes. -/
def relOf (pfx path : List Char) : List Char :=
  (unquoteChars (path.drop pfx.length)).dropWhile (fun c => decide (c = '/'))

/-- Line 57: `os.path.abspath(os.path.join(PROJECT_ROOT, rel))`. -/
def resolve (root rel : List Char) : List Char :=
  abspath root (pjoin root rel)

/-- Lines 73-79: the content-type table with its generic-binary fallback. -/
def guessCType (ext : List Char) : List Char :=
  if ext = ".mp4".toList then "video/mp4".toList
  else if ext = ".mp3".toList ∨ ext = ".mp2".toList then "audio/mpeg".toList
  else if ext = ".m4a".toList ∨ ext = ".aac".toList then "audio/mp4".toList
  else if ext = ".webm".toList then "video/webm".toList
  else "application/octet-stream".toList

/-- The response headers emitted on the 200 path (lines 82-87).
`attachmentFilename` is the `filename="..."` value of the
`Content-Disposition: attachment` header; `xDeleted` the `X-Deleted`
marker header. -/
structure Headers where
  contentType : List Char
  contentLength : Nat
  attachmentFilename : List Char
  xDeleted : List Char
deriving DecidableEq

/-- What went on the wire: `send_error code`, or a 200 with its headers and
a flag telling whether the whole body was streamed. -/
inductive HttpResponse where
  | error (code : Nat)
  | ok (headers : Headers) (bodyComplete : Bool)
deriving DecidableEq

/-- How the streaming `try` block (lines 81-89) ends: ran to completion,
raised `BrokenPipeError` (caught on line 90), or raised any other
exception (uncaught, but the `finally` still runs). -/
inductive StreamOutcome where
  | completed
  | brokenPipe
  | otherError
deriving DecidableEq

/-- Environment nondeterminism for one request. -/
structure Env where
  /-- How the streaming `try` block ends. -/
  stream : StreamOutcome
  /-- Whether `os.remove` raises an error other than `FileNotFoundError`
  (e.g. a permission error), in which case the file stays. -/
  removeFails : Bool
  /-- The file was removed externally between the existence check and the
  cleanup phase, so `os.remove` raises `FileNotFoundError`. -/
  vanishes : Bool
deriving DecidableEq

/-- Observable outcome of one `do_GET` call. -/
structure HandlerResult where
  response : HttpResponse
  fs : FS
  /-- The `[WARN] Delete failed` line (line 99) was printed. -/
  warned : Bool
  /-- The one-shot shutdown thread (lines 101-108) was started. -/
  shutdownInitiated : Bool
  /-- An exception escaped `do_GET` (possible only from the streaming
  `try`; never from the cleanup phase). -/
  raised : Bool
deriving DecidableEq

/-- An early `send_error` return: status sent, nothing else happens. -/
def reject (code : Nat) (fs : FS) : HandlerResult :=
  { response := .error code, fs := fs, warned := false,
    shutdownInitiated := false, raised := false }

/-- Lines 72-108: content-type guess, 200 + headers, stream, `finally`
cleanup, and the one-shot shutdown block.  The headers (including
`Content-Length` from `os.path.getsize`) are computed from the filesystem
as seen at validation time.  The cleanup runs on every exit of the `try`;
`FileNotFoundError` from `os.remove` is swallowed silently, any other
error only prints a warning.  The shutdown block runs only when control
flows past the `try`/`finally` normally, i.e. when the `try` completed or
raised the caught `BrokenPipeError`. -/
def serveFile (once : Bool) (env : Env) (fs : FS) (absPath ext : List Char) :
    HandlerResult :=
  let headers : Headers :=
    { contentType := guessCType ext
      contentLength := fsSize fs absPath
      attachmentFilename := basenameOf absPath
      xDeleted := "1".toList }
  let fs1 := if env.vanishes then fsRemove fs absPath else fs
  let cleanup : FS × Bool :=
    if fsExists fs1 absPath then
      if env.removeFails then (fs1, true) else (fsRemove fs1 absPath, false)
    else (fs1, false)
  match env.stream with
  | .completed =>
    { response := .ok headers true, fs := cleanup.1, warned := cleanup.2,
      shutdownInitiated := once, raised := false }
  | .brokenPipe =>
    { response := .ok headers false, fs := cleanup.1, warned := cleanup.2,
      shutdownInitiated := once, raised := false }
  | .otherError =>
    { response := .ok headers false, fs := cleanup.1, warned := cleanup.2,
      shutdownInitiated := false, raised := true }

/-- Model of `SelfDestructHandler.do_GET` (lines 51-108).  `root` is
`PROJECT_ROOT`, `pfx` is `SERVE_PREFIX`, `once` the one-shot flag. -/
def do_GET (root pfx : List Char) (once : Bool) (env : Env) (fs : FS)
    (path : List Char) : HandlerResult :=
  if ¬ pfx.isPrefixOf path then reject 404 fs
  else
    let rel := relOf pfx path
    let absPath := resolve root rel
    if ¬ root.isPrefixOf absPath then reject 403 fs
    else
      let ext := asciiLower (extOf absPath)
      if ¬ fsExists fs absPath then reject 404 fs
      else if ¬ ALLOWED_EXTS.contains ext then reject 415 fs
      else serveFile once env fs absPath ext


/-! ## Spec-side notions and auxiliary predicates -/

/-- Modelled from the spec: "equal to Root or a descendant of Root"
(§4.1 step 3) on canonical absolute paths — `p` is `root` itself or lies
strictly below it, i.e. extends it across a `'/'` separator.  This is the
notion the containment *claim* speaks about; the code's check is the bare
string test `abs_path.startswith(PROJECT_ROOT)`. -/
def isRootOrDescendant (root p : List Char) : Bool :=
  p == root || (root ++ ['/']).isPrefixOf p

/-- Modelled from the spec: the Delivery Outcome taxonomy of §3
({success-and-deleted, success-but-delete-failed, rejected-before-send,
send-aborted-but-deleted}); the code has no such enum, it exists only as
spec-level observability vocabulary. -/
inductive DeliveryOutcome where
  | successAndDeleted
  | successButDeleteFailed
  | rejectedBeforeSend
  | sendAbortedButDeleted
deriving DecidableEq

/-- Modelled from the spec: classify one handled request into §3's
Delivery Outcome, from the wire response, the delete-warning flag and the
way the transfer ended. -/
def deliveryOutcome (res : HandlerResult) (env : Env) : DeliveryOutcome :=
  match res.response with
  | .error _ => .rejectedBeforeSend
  | .ok _ _ =>
    match env.stream with
    | .completed =>
      if res.warned then .successButDeleteFailed else .successAndDeleted
    | _ => .sendAbortedButDeleted

/-- A 200 response (as opposed to a `send_error` rejection). -/
def isOkResp : HttpResponse → Bool
  | .ok _ _ => true
  | .error _ => false

/-- A canonical absolute directory path other than `/`: starts with a
single `'/'`, does not end in `'/'`, and all its components are nonempty
and distinct from `.` and `..`.  `PROJECT_ROOT = os.path.abspath(os.getcwd())`
has this shape (except in the degenerate cwd-is-`/` case). -/
def goodComp (c : List Char) : Bool :=
  decide (c ≠ [] ∧ c ≠ ['.'] ∧ c ≠ ['.', '.'])

/-- See `goodComp`. -/
def CanonRoot (root : List Char) : Bool :=
  match root with
  | c :: rest =>
    decide (c = '/') && decide (rest ≠ []) && decide (rest.head? ≠ some '/')
      && decide (rest.getLast? ≠ some '/') && (splitSlash rest).all goodComp
  | [] => false

/-! ## Helper lemmas -/

theorem fsLookup_fsRemove_self (fs : FS) (p : List Char) :
    fsLookup (fsRemove fs p) p = none := by
  induction fs with
  | nil => rfl
  | cons kv rest ih =>
    obtain ⟨k, e⟩ := kv
    by_cases h : k = p
    · simpa [fsRemove, h] using ih
    · simpa [fsRemove, fsLookup, h] using ih

theorem isPrefixOf_self (l : List Char) : l.isPrefixOf l = true := by
  induction l with
  | nil => rfl
  | cons c rest ih => simp [List.isPrefixOf, ih]

theorem splitSlash_cons_slash (xs : List Char) :
    splitSlash ('/' :: xs) = [] :: splitSlash xs := by
  simp [splitSlash]

theorem splitSlash_cons_other (c : Char) (xs : List Char) (h : c ≠ '/') :
    splitSlash (c :: xs)
      = (c :: (splitSlash xs).headI) :: (splitSlash xs).tail := by
  simp [splitSlash, h]

theorem splitSlash_ne_nil (xs : List Char) : splitSlash xs ≠ [] := by
  cases xs with
  | nil => simp [splitSlash]
  | cons c rest =>
    by_cases h : c = '/'
    · subst h; simp [splitSlash_cons_slash]
    · simp [splitSlash_cons_other c rest h]

theorem splitSlash_append_slash (xs : List Char) :
    splitSlash (xs ++ ['/']) = splitSlash xs ++ [[]] := by
  induction xs with
  | nil => rfl
  | cons c rest ih =>
    by_cases h : c = '/'
    · subst h
      rw [List.cons_append, splitSlash_cons_slash, splitSlash_cons_slash, ih]
      rfl
    · rcases hr : splitSlash rest with _ | ⟨h1, t1⟩
      · exact absurd hr (splitSlash_ne_nil rest)
      · rw [hr] at ih
        rw [List.cons_append, splitSlash_cons_other c _ h,
          splitSlash_cons_other c _ h, ih, hr]
        simp

theorem joinSlash_splitSlash (xs : List Char) :
    joinSlash (splitSlash xs) = xs := by
  induction xs with
  | nil => rfl
  | cons c rest ih =>
    by_cases h : c = '/'
    · subst h
      rw [splitSlash_cons_slash]
      rcases hr : splitSlash rest with _ | ⟨h1, t1⟩
      · exact absurd hr (splitSlash_ne_nil rest)
      · rw [hr] at ih
        simpa [joinSlash] using ih
    · rw [splitSlash_cons_other c rest h]
      rcases hr : splitSlash rest with _ | ⟨h1, t1⟩
      · exact absurd hr (splitSlash_ne_nil rest)
      · rw [hr] at ih
        cases t1 with
        | nil => simpa [joinSlash] using ih
        | cons x xs' => simpa [joinSlash] using ih

theorem normStep_nil_comp (i : Bool) (acc : List (List Char)) :
    normStep i acc [] = acc := by
  simp [normStep]

theorem normStep_good (i : Bool) (acc : List (List Char)) (c : List Char)
    (hc : goodComp c = true) : normStep i acc c = c :: acc := by
  rw [goodComp, decide_eq_true_eq] at hc
  obtain ⟨h1, h2, h3⟩ := hc
  simp [normStep, h1, h2, h3]

theorem foldl_normStep_good (i : Bool) (l : List (List Char))
    (hl : l.all goodComp = true) (acc : List (List Char)) :
    l.foldl (normStep i) acc = l.reverse ++ acc := by
  induction l generalizing acc with
  | nil => simp
  | cons c t ih =>
    rw [List.all_cons, Bool.and_eq_true] at hl
    rw [List.foldl_cons, normStep_good i acc c hl.1, ih hl.2]
    simp

theorem resolve_root_nil (root : List Char) (h : CanonRoot root = true) :
    resolve root [] = root := by
  cases root with
  | nil => simp [CanonRoot] at h
  | cons c rest =>
    simp only [CanonRoot, Bool.and_eq_true, decide_eq_true_eq] at h
    obtain ⟨⟨⟨⟨hc, hne⟩, hhd⟩, hlast⟩, hall⟩ := h
    subst hc
    obtain ⟨r, rs, rfl⟩ := List.exists_cons_of_ne_nil hne
    have hr : r ≠ '/' := by
      intro hr'
      subst hr'
      simp [List.head?] at hhd
    -- Step 1: the join appends a single trailing slash.
    have hjoin : pjoin ('/' :: r :: rs) [] = '/' :: r :: rs ++ ['/'] := by
      have hl : ('/' :: r :: rs).getLast? = (r :: rs).getLast? := by
        simp [List.getLast?_cons_cons]
      simp [pjoin, hl, hlast]
    -- Step 2: normpath drops it again.
    rw [resolve, abspath, hjoin]
    simp only [List.head?, reduceIte]
    rw [normpath]
    have hk : slashPrefixLen ('/' :: r :: rs ++ ['/']) = 1 := by
      simp [slashPrefixLen, hr]
    have hsplit : splitSlash ('/' :: r :: rs ++ ['/'])
        = [] :: (splitSlash (r :: rs) ++ [[]]) := by
      have heq : ('/' :: r :: rs ++ ['/']) = '/' :: ((r :: rs) ++ ['/']) := by
        simp
      rw [heq, splitSlash_cons_slash, splitSlash_append_slash]
    simp only [hk, hsplit]
    rw [List.foldl_cons, normStep_nil_comp, List.foldl_append]
    rw [foldl_normStep_good _ _ hall, List.foldl_cons, normStep_nil_comp,
      List.foldl_nil]
    simp only [List.append_nil, List.reverse_reverse]
    rw [joinSlash_splitSlash]
    simp



/-! ## Claim theorems -/

/-- Claim C1 (code bug demonstration).  The claim: a GET whose relative
part canonicalizes outside Root is answered 403 with no deletion.  The
code instead guards with the bare string test
`abs_path.startswith(PROJECT_ROOT)` (line 60), which any sibling of Root
whose name extends Root's passes.  Concretely, with Root `/srv/app`,
`GET /dl/../app-evil/x.mp4` resolves to `/srv/app-evil/x.mp4` — not Root
nor a descendant of Root — yet the handler serves it with 200 and deletes
the file outside Root. -/
theorem c1_containment_bypass :
    resolve "/srv/app".toList
        (relOf "/dl/".toList "/dl/../app-evil/x.mp4".toList)
      = "/srv/app-evil/x.mp4".toList
    ∧ isRootOrDescendant "/srv/app".toList "/srv/app-evil/x.mp4".toList = false
    ∧ (do_GET "/srv/app".toList "/dl/".toList false ⟨.completed, false, false⟩
        [("/srv/app-evil/x.mp4".toList, Entry.file 10)]
        "/dl/../app-evil/x.mp4".toList).response
      = .ok ⟨"video/mp4".toList, 10, "x.mp4".toList, "1".toList⟩ true
    ∧ (do_GET "/srv/app".toList "/dl/".toList false ⟨.completed, false, false⟩
        [("/srv/app-evil/x.mp4".toList, Entry.file 10)]
        "/dl/../app-evil/x.mp4".toList).fs = [] := by decide

/-- Claim C5 (counterexample).  The claim says a resolved path that does
not exist *as a regular file* is answered 404 regardless of extension.
But the existence check is `os.path.exists` (line 65), which accepts
directories: for a directory `/srv/app/sub` (no allow-listed extension,
not a regular file) the handler answers 415, not 404. -/
theorem c5_counterexample :
    (do_GET "/srv/app".toList "/dl/".toList false ⟨.completed, false, false⟩
        [("/srv/app".toList, Entry.dir), ("/srv/app/sub".toList, Entry.dir)]
        "/dl/sub".toList).response = .error 415
    ∧ fsLookup [("/srv/app".toList, Entry.dir), ("/srv/app/sub".toList, Entry.dir)]
        "/srv/app/sub".toList = some Entry.dir := by decide

/-- Claim C8 (counterexample).  The claim says one-shot shutdown fires
exactly after the first Delivery Outcome of a "success" kind
(success-and-deleted or success-but-delete-failed).  But the shutdown
block (lines 101-108) sits after the `try`/`finally`, which is also
reached when the client aborted and `BrokenPipeError` was caught: a
delivery whose outcome is send-aborted-but-deleted — not a success kind —
also initiates the shutdown. -/
theorem c8_counterexample :
    let env : Env := ⟨.brokenPipe, false, false⟩
    let res := do_GET "/srv/app".toList "/dl/".toList true env
      [("/srv/app/hooked_01.mp4".toList, Entry.file 10)]
      "/dl/hooked_01.mp4".toList
    res.shutdownInitiated = true
    ∧ deliveryOutcome res env = DeliveryOutcome.sendAbortedButDeleted := by
  decide

/-- Claim C9 (counterexample).  The claim says the Step-1 prefix check
operates on the percent-decoded path.  The code checks
`self.path.startswith(SERVE_PREFIX)` on the *raw* path (line 52) and only
percent-decodes the remainder (line 56): `GET /%64l/x.mp4` decodes to
`/dl/x.mp4`, which starts with the prefix, yet the handler answers 404. -/
theorem c9_counterexample :
    ("/dl/".toList).isPrefixOf (unquoteChars "/%64l/x.mp4".toList) = true
    ∧ (do_GET "/srv/app".toList "/dl/".toList false ⟨.completed, false, false⟩
        [("/srv/app/x.mp4".toList, Entry.file 5)] "/%64l/x.mp4".toList).response
      = .error 404 := by decide


/-- The empty extension is not allow-listed. -/
theorem allowed_not_empty : ([] : List Char) ∉ ALLOWED_EXTS := by
  decide

/-- Claim C4 (confirmed): a GET whose path does not start with the
configured prefix is answered 404 immediately: the result — for every
filesystem alike — is the bare `send_error(404)` with the filesystem
untouched, no warning, no shutdown, no exception.  The filesystem is
never consulted (the result does not depend on `fs` beyond returning it
unchanged). -/
theorem c4_route_mismatch (root pfx path : List Char) (once : Bool)
    (env : Env) (fs : FS) (h : pfx.isPrefixOf path = false) :
    do_GET root pfx once env fs path = reject 404 fs := by
  simp [do_GET, h]

/-- Witness for `c4_route_mismatch`. -/
theorem c4_route_mismatch_witness :
    do_GET "/srv/app".toList "/dl/".toList false ⟨.completed, false, false⟩
      [("/srv/app/hooked_01.mp4".toList, Entry.file 10)] "/other/x.mp4".toList
    = reject 404 [("/srv/app/hooked_01.mp4".toList, Entry.file 10)] :=
  c4_route_mismatch _ _ _ _ _ _ (by decide)

/-- Claim C6 (confirmed): a GET for an existing file under the prefix
whose lowercased extension is outside `ALLOWED_EXTS` is answered 415
and nothing else happens: the filesystem is returned unchanged (no
deletion is attempted), no warning, no shutdown, no exception. -/
theorem c6_unsupported_type_untouched (root pfx path : List Char)
    (once : Bool) (env : Env) (fs : FS) (sz : Nat)
    (hpre : pfx.isPrefixOf path = true)
    (hin : root.isPrefixOf (resolve root (relOf pfx path)) = true)
    (hfile : fsLookup fs (resolve root (relOf pfx path)) = some (.file sz))
    (hext : ALLOWED_EXTS.contains
      (asciiLower (extOf (resolve root (relOf pfx path)))) = false) :
    do_GET root pfx once env fs path = reject 415 fs := by
  have hm : asciiLower (extOf (resolve root (relOf pfx path))) ∉ ALLOWED_EXTS := by
    simpa using hext
  simp [do_GET, hpre, hin, fsExists, hfile, hm]

/-- Witness for `c6_unsupported_type_untouched`. -/
theorem c6_unsupported_type_untouched_witness :
    do_GET "/srv/app".toList "/dl/".toList false ⟨.completed, false, false⟩
      [("/srv/app/notes.txt".toList, Entry.file 3)] "/dl/notes.txt".toList
    = reject 415 [("/srv/app/notes.txt".toList, Entry.file 3)] :=
  c6_unsupported_type_untouched _ _ _ _ _ _ 3 (by decide) (by decide)
    (by decide) (by decide)

/-- Claim C2 (confirmed): for a file that exists inside Root with an
allow-listed extension, a GET under the prefix (with the transfer
completing and `os.remove` succeeding) returns 200 with the body fully
streamed, afterwards the file no longer exists, and a second GET for the
same path — under any environment and one-shot flag — returns 404. -/
theorem c2_serve_delete_then_404 (root pfx path : List Char)
    (once once2 : Bool) (env2 : Env) (fs : FS) (sz : Nat)
    (hpre : pfx.isPrefixOf path = true)
    (hin : root.isPrefixOf (resolve root (relOf pfx path)) = true)
    (hfile : fsLookup fs (resolve root (relOf pfx path)) = some (.file sz))
    (hext : ALLOWED_EXTS.contains
      (asciiLower (extOf (resolve root (relOf pfx path)))) = true) :
    let res := do_GET root pfx once ⟨.completed, false, false⟩ fs path
    (∃ h, res.response = .ok h true)
    ∧ fsExists res.fs (resolve root (relOf pfx path)) = false
    ∧ (do_GET root pfx once2 env2 res.fs path).response = .error 404 := by
  have hres : do_GET root pfx once ⟨.completed, false, false⟩ fs path
      = { response := .ok
            { contentType := guessCType
                (asciiLower (extOf (resolve root (relOf pfx path))))
              contentLength := fsSize fs (resolve root (relOf pfx path))
              attachmentFilename := basenameOf (resolve root (relOf pfx path))
              xDeleted := "1".toList } true
          fs := fsRemove fs (resolve root (relOf pfx path))
          warned := false, shutdownInitiated := once, raised := false } := by
    have hm : asciiLower (extOf (resolve root (relOf pfx path))) ∈ ALLOWED_EXTS := by
      simpa using hext
    simp [do_GET, serveFile, hpre, hin, fsExists, hfile, hm]
  refine ⟨⟨_, by rw [hres]⟩, ?_, ?_⟩
  · rw [hres]
    simp [fsExists, fsLookup_fsRemove_self]
  · rw [hres]
    simp [do_GET, hpre, hin, fsExists, fsLookup_fsRemove_self, reject]

/-- Witness for `c2_serve_delete_then_404`. -/
theorem c2_serve_delete_then_404_witness :
    let res := do_GET "/srv/app".toList "/dl/".toList false
      ⟨.completed, false, false⟩ [("/srv/app/hooked_01.mp4".toList, Entry.file 10)]
      "/dl/hooked_01.mp4".toList
    (∃ h, res.response = .ok h true)
    ∧ fsExists res.fs (resolve "/srv/app".toList
        (relOf "/dl/".toList "/dl/hooked_01.mp4".toList)) = false
    ∧ (do_GET "/srv/app".toList "/dl/".toList true ⟨.brokenPipe, true, false⟩
        res.fs "/dl/hooked_01.mp4".toList).response = .error 404 :=
  c2_serve_delete_then_404 _ _ _ false true ⟨.brokenPipe, true, false⟩ _ 10
    (by decide) (by decide) (by decide) (by decide)

/-- Claim C3 (confirmed): once the 200 path is entered, the `finally`
cleanup runs on every exit of the streaming block — completion,
`BrokenPipeError`, or any other exception: (1) whenever `os.remove` does
not fail, the file is gone afterwards, for every stream outcome; (2) if
the file already vanished, the `FileNotFoundError` is swallowed silently
(no warning — idempotent success); (3) an exception escapes the handler
only from the streaming block itself, never from the cleanup; (4) a
failing delete leaves the file, prints the warning, and (5) never changes
the response that was already sent (the response equals the one produced
with a succeeding delete). -/
theorem c3_cleanup_guarantees (root pfx path : List Char) (once : Bool)
    (env : Env) (fs : FS) (sz : Nat)
    (hpre : pfx.isPrefixOf path = true)
    (hin : root.isPrefixOf (resolve root (relOf pfx path)) = true)
    (hfile : fsLookup fs (resolve root (relOf pfx path)) = some (.file sz))
    (hext : ALLOWED_EXTS.contains
      (asciiLower (extOf (resolve root (relOf pfx path)))) = true) :
    let abs := resolve root (relOf pfx path)
    let res := do_GET root pfx once env fs path
    (env.removeFails = false → fsExists res.fs abs = false)
    ∧ (env.vanishes = true → res.warned = false)
    ∧ (res.raised = true ↔ env.stream = .otherError)
    ∧ (env.removeFails = true → env.vanishes = false →
        res.warned = true ∧ res.fs = fs)
    ∧ res.response
        = (do_GET root pfx once ⟨env.stream, false, env.vanishes⟩ fs path).response := by
  have hm : asciiLower (extOf (resolve root (relOf pfx path))) ∈ ALLOWED_EXTS := by
    simpa using hext
  obtain ⟨st, rf, vn⟩ := env
  cases st <;> cases rf <;> cases vn <;>
    simp [do_GET, serveFile, hpre, hin, fsExists, hfile, hm,
      fsLookup_fsRemove_self]

/-- Witness for `c3_cleanup_guarantees`. -/
theorem c3_cleanup_guarantees_witness :
    let abs := resolve "/srv/app".toList
      (relOf "/dl/".toList "/dl/hooked_01.mp4".toList)
    let res := do_GET "/srv/app".toList "/dl/".toList false
      ⟨.brokenPipe, false, false⟩ [("/srv/app/hooked_01.mp4".toList, Entry.file 10)]
      "/dl/hooked_01.mp4".toList
    ((⟨.brokenPipe, false, false⟩ : Env).removeFails = false →
      fsExists res.fs abs = false)
    ∧ ((⟨.brokenPipe, false, false⟩ : Env).vanishes = true → res.warned = false)
    ∧ (res.raised = true ↔ (⟨.brokenPipe, false, false⟩ : Env).stream = .otherError)
    ∧ ((⟨.brokenPipe, false, false⟩ : Env).removeFails = true →
        (⟨.brokenPipe, false, false⟩ : Env).vanishes = false →
        res.warned = true ∧ res.fs = [("/srv/app/hooked_01.mp4".toList, Entry.file 10)])
    ∧ res.response
        = (do_GET "/srv/app".toList "/dl/".toList false ⟨.brokenPipe, false, false⟩
            [("/srv/app/hooked_01.mp4".toList, Entry.file 10)]
            "/dl/hooked_01.mp4".toList).response :=
  c3_cleanup_guarantees _ _ _ false ⟨.brokenPipe, false, false⟩ _ 10
    (by decide) (by decide) (by decide) (by decide)

/-- Claim C7 (confirmed): on the delivery path the 200 response carries
exactly the headers of lines 82-87: a `Content-Type` obtained from the
extension through the static `guessCType` table, a `Content-Length`
equal to the file size recorded at validation time, a
`Content-Disposition: attachment` proposing the file base name, and the
`X-Deleted: 1` marker; and every extension outside the table falls back
to `application/octet-stream`. -/
theorem c7_response_headers (root pfx path : List Char) (once : Bool)
    (env : Env) (fs : FS) (sz : Nat)
    (hpre : pfx.isPrefixOf path = true)
    (hin : root.isPrefixOf (resolve root (relOf pfx path)) = true)
    (hfile : fsLookup fs (resolve root (relOf pfx path)) = some (.file sz))
    (hext : ALLOWED_EXTS.contains
      (asciiLower (extOf (resolve root (relOf pfx path)))) = true) :
    (∃ b, (do_GET root pfx once env fs path).response
        = .ok { contentType := guessCType
                  (asciiLower (extOf (resolve root (relOf pfx path))))
                contentLength := sz
                attachmentFilename := basenameOf (resolve root (relOf pfx path))
                xDeleted := "1".toList } b)
    ∧ (∀ e, e ≠ ".mp4".toList → e ≠ ".mp3".toList → e ≠ ".mp2".toList →
        e ≠ ".m4a".toList → e ≠ ".aac".toList → e ≠ ".webm".toList →
        guessCType e = "application/octet-stream".toList) := by
  constructor
  · obtain ⟨st, rf, vn⟩ := env
    have hsz : fsSize fs (resolve root (relOf pfx path)) = sz := by
      simp [fsSize, hfile]
    have hm : asciiLower (extOf (resolve root (relOf pfx path))) ∈ ALLOWED_EXTS := by
      simpa using hext
    cases st with
    | completed =>
      exact ⟨true, by simp [do_GET, serveFile, hpre, hin, fsExists, hfile, hm, hsz]⟩
    | brokenPipe =>
      exact ⟨false, by simp [do_GET, serveFile, hpre, hin, fsExists, hfile, hm, hsz]⟩
    | otherError =>
      exact ⟨false, by simp [do_GET, serveFile, hpre, hin, fsExists, hfile, hm, hsz]⟩
  · intro e h1 h2 h3 h4 h5 h6
    simp at h1 h2 h3 h4 h5 h6
    simp [guessCType, h1, h2, h3, h4, h5, h6]

/-- Witness for `c7_response_headers`. -/
theorem c7_response_headers_witness :
    (∃ b, (do_GET "/srv/app".toList "/dl/".toList false ⟨.completed, false, false⟩
        [("/srv/app/hooked_01.mp4".toList, Entry.file 10)]
        "/dl/hooked_01.mp4".toList).response
      = .ok { contentType := guessCType (asciiLower (extOf (resolve "/srv/app".toList
                (relOf "/dl/".toList "/dl/hooked_01.mp4".toList))))
              contentLength := 10
              attachmentFilename := basenameOf (resolve "/srv/app".toList
                (relOf "/dl/".toList "/dl/hooked_01.mp4".toList))
              xDeleted := "1".toList } b)
    ∧ (∀ e, e ≠ ".mp4".toList → e ≠ ".mp3".toList → e ≠ ".mp2".toList →
        e ≠ ".m4a".toList → e ≠ ".aac".toList → e ≠ ".webm".toList →
        guessCType e = "application/octet-stream".toList) :=
  c7_response_headers _ _ _ false ⟨.completed, false, false⟩ _ 10
    (by decide) (by decide) (by decide) (by decide)

/-- Claim C5 (amended, proved): for a request that passes the prefix and
containment checks, the existence check — `os.path.exists`, which accepts
directories as well as regular files — is applied before the extension
check: a path that does not exist at all is answered 404 whatever its
extension, and a path that exists (as file or directory) whose lowercased
extension is not allow-listed is answered 415; in both cases nothing else
happens. -/
theorem c5_exists_before_extension (root pfx path : List Char)
    (once : Bool) (env : Env) (fs : FS)
    (hpre : pfx.isPrefixOf path = true)
    (hin : root.isPrefixOf (resolve root (relOf pfx path)) = true) :
    let abs := resolve root (relOf pfx path)
    let res := do_GET root pfx once env fs path
    (fsExists fs abs = false → res = reject 404 fs)
    ∧ (fsExists fs abs = true →
        ALLOWED_EXTS.contains (asciiLower (extOf abs)) = false →
        res = reject 415 fs) := by
  refine ⟨fun h1 => ?_, fun h1 h2 => ?_⟩
  · simp [do_GET, hpre, hin, h1]
  · have hm : asciiLower (extOf (resolve root (relOf pfx path))) ∉ ALLOWED_EXTS := by
      simpa using h2
    simp [do_GET, hpre, hin, h1, hm]

/-- Witness for `c5_exists_before_extension`. -/
theorem c5_exists_before_extension_witness :
    let abs := resolve "/srv/app".toList (relOf "/dl/".toList "/dl/sub".toList)
    let res := do_GET "/srv/app".toList "/dl/".toList false
      ⟨.completed, false, false⟩ [("/srv/app/sub".toList, Entry.dir)]
      "/dl/sub".toList
    (fsExists [("/srv/app/sub".toList, Entry.dir)] abs = false →
      res = reject 404 [("/srv/app/sub".toList, Entry.dir)])
    ∧ (fsExists [("/srv/app/sub".toList, Entry.dir)] abs = true →
        ALLOWED_EXTS.contains (asciiLower (extOf abs)) = false →
        res = reject 415 [("/srv/app/sub".toList, Entry.dir)]) :=
  c5_exists_before_extension _ _ _ false ⟨.completed, false, false⟩ _
    (by decide) (by decide)

/-- Claim C9 (amended, proved): the prefix check runs on the raw
(still percent-encoded) request path; percent-decoding is applied to the
remainder after the prefix is stripped, before any further validation.
Hence (1) two raw paths that both carry the raw prefix and whose
remainders decode to the same string are handled identically, and (2) a
path that does not carry the raw prefix is answered 404 outright, even if
its decoded form would carry the prefix. -/
theorem c9_raw_prefix_decoded_remainder (root pfx p1 p2 : List Char)
    (once : Bool) (env : Env) (fs : FS)
    (h1 : pfx.isPrefixOf p1 = true) (h2 : pfx.isPrefixOf p2 = true)
    (hdec : unquoteChars (p1.drop pfx.length)
      = unquoteChars (p2.drop pfx.length)) :
    do_GET root pfx once env fs p1 = do_GET root pfx once env fs p2
    ∧ ∀ q, pfx.isPrefixOf q = false →
        (do_GET root pfx once env fs q).response = .error 404 := by
  constructor
  · have hrel : relOf pfx p1 = relOf pfx p2 := by rw [relOf, relOf, hdec]
    simp [do_GET, h1, h2, hrel]
  · intro q hq
    simp [do_GET, hq, reject]

/-- Witness for `c9_raw_prefix_decoded_remainder`. -/
theorem c9_raw_prefix_decoded_remainder_witness :
    do_GET "/srv/app".toList "/dl/".toList false ⟨.completed, false, false⟩
      [("/srv/app/a.mp4".toList, Entry.file 7)] "/dl/a%2Emp4".toList
    = do_GET "/srv/app".toList "/dl/".toList false ⟨.completed, false, false⟩
      [("/srv/app/a.mp4".toList, Entry.file 7)] "/dl/a.mp4".toList
    ∧ ∀ q, ("/dl/".toList).isPrefixOf q = false →
        (do_GET "/srv/app".toList "/dl/".toList false ⟨.completed, false, false⟩
          [("/srv/app/a.mp4".toList, Entry.file 7)] q).response = .error 404 :=
  c9_raw_prefix_decoded_remainder _ _ _ _ false ⟨.completed, false, false⟩ _
    (by decide) (by decide) (by decide)

/-- Claim C8 (amended, proved): the one-shot shutdown thread is started
after a request exactly when the one-shot flag is set, the request
reached the delivery path (a 200 went out), and the handler did not
propagate an exception — i.e. the streaming block completed or ended in
the caught `BrokenPipeError`.  In particular rejections (403/404/415)
never initiate shutdown, while an aborted-but-deleted delivery does. -/
theorem c8_shutdown_iff_delivery_completed (root pfx path : List Char)
    (once : Bool) (env : Env) (fs : FS) :
    (do_GET root pfx once env fs path).shutdownInitiated
      = (once && isOkResp (do_GET root pfx once env fs path).response
          && !(do_GET root pfx once env fs path).raised) := by
  obtain ⟨st, rf, vn⟩ := env
  cases st <;> simp only [do_GET] <;> (repeat' split) <;>
    simp [reject, serveFile, isOkResp]

/-- Claim C10 (confirmed): when the request path is the bare prefix with
an empty or separator-only remainder (for a canonical Root whose basename
has no extension, bound to a directory), the resolved path is Root
itself; Root passes the containment check and — because `os.path.exists`
accepts directories — the existence check, and the request is then
rejected 415 (the empty extension is not allow-listed), not 404. -/
theorem c10_bare_prefix_resolves_to_root (root pfx path : List Char)
    (once : Bool) (env : Env) (fs : FS)
    (hcanon : CanonRoot root = true)
    (hpre : pfx.isPrefixOf path = true)
    (hrel : relOf pfx path = [])
    (hdir : fsLookup fs root = some .dir)
    (hext : extOf root = []) :
    resolve root (relOf pfx path) = root
    ∧ do_GET root pfx once env fs path = reject 415 fs := by
  have hres : resolve root (relOf pfx path) = root := by
    rw [hrel, resolve_root_nil root hcanon]
  refine ⟨hres, ?_⟩
  simp [do_GET, hpre, hres, isPrefixOf_self, fsExists, hdir, hext,
    asciiLower, allowed_not_empty]

/-- Witness for `c10_bare_prefix_resolves_to_root`. -/
theorem c10_bare_prefix_resolves_to_root_witness :
    resolve "/srv/app".toList (relOf "/dl/".toList "/dl/".toList)
      = "/srv/app".toList
    ∧ do_GET "/srv/app".toList "/dl/".toList false ⟨.completed, false, false⟩
        [("/srv/app".toList, Entry.dir)] "/dl/".toList
      = reject 415 [("/srv/app".toList, Entry.dir)] :=
  c10_bare_prefix_resolves_to_root _ _ _ false ⟨.completed, false, false⟩ _
    (by decide) (by decide) (by decide) (by decide) (by decide)

end SelfDestruct
